import Mathlib

/-!
Verification development for the `downloader` package of gitmoo-goog
(src/downloader/downloader.go), a bulk Google-Photos downloader.

The Go code is shallowly embedded: pure helpers become Lean functions, the
filesystem and the external HTTP/listing collaborators become explicit
oracle values threaded through the functions, and the sequential driver
loop becomes structural recursion over the list of listing responses the
remote service would deliver.  Go `error` values are modelled as `Option
Err` results, and a Go panic (unrecovered runtime fault) is modelled by a
top-level `Option` returning `none`.
-/

namespace Gitmoo

/-- Go `error` values, modelled by their message string. -/
abbrev Err := String

/-- The fields of `photoslibrary.MediaMetadata` used by downloader.go:
`CreationTime` (a string timestamp) and whether `Video` is non-nil. -/
structure MediaMetadata where
  creationTime : String
  video : Bool
  deriving DecidableEq, Repr

/-- The fields of `photoslibrary.MediaItem` used by downloader.go. -/
structure MediaItem where
  id : String
  mimeType : String
  baseUrl : String
  mediaMetadata : MediaMetadata
  deriving DecidableEq, Repr

/-- The run statistics of downloader.go's package-level `stats` variable:
`total`, `errors`, `totalsize` (a `uint64`), `downloaded`. -/
structure Stats where
  total : Nat
  errors : Nat
  totalsize : Nat
  downloaded : Nat
  deriving DecidableEq, Repr

/-- The package-level `Options` configuration of downloader.go. -/
structure Options where
  backupFolder : String
  maxItems : Nat
  pageSize : Nat
  throttle : Nat
  albumID : String
  deriving DecidableEq, Repr

/-- Result of an `os.Stat` call: the file exists with a size, or the error
satisfies `os.IsNotExist`, or `Stat` failed with some other error (e.g. a
permission error on a path component). -/
inductive StatResult where
  | found (size : Nat)
  | notExist
  | otherError (e : Err)
  deriving DecidableEq, Repr

/-- The local filesystem, as the downloader observes it: file contents by
path (a byte list per path), plus the paths on which `os.Stat` fails with
a non-`IsNotExist` error. -/
structure Disk where
  files : List (String × List Nat)
  statErr : List (String × Err)
  deriving DecidableEq, Repr

/-- Content of the file at path `p`, if it exists. -/
def Disk.getFile (d : Disk) (p : String) : Option (List Nat) :=
  d.files.lookup p

/-- Models `os.Stat p` against the modelled disk. -/
def Disk.stat (d : Disk) (p : String) : StatResult :=
  match d.statErr.lookup p with
  | some e => .otherError e
  | none =>
    match d.files.lookup p with
    | some c => .found c.length
    | none => .notExist

/-- Write (create or fully replace) the file at path `p`.  The new entry
is consed in front and shadows any older entry for the same path: every
read (`getFile`, `stat`) sees only the newest entry, so this is the
ordinary assoc-list model of a store update. -/
def Disk.setFile (d : Disk) (p : String) (c : List Nat) : Disk :=
  { d with files := (p, c) :: d.files }

/-- Modelled from the Go standard library (external to this repository):
`filepath.Join` on already-clean non-empty components, which interleaves
the path separator. -/
def pathJoin : List String → String
  | [] => ""
  | [p] => p
  | p :: rest => p ++ "/" ++ pathJoin rest

/-- The `(year, month, day)` fields of a parsed `time.Time` that
downloader.go reads (`Year()`, `Month()`, `Day()`). -/
structure GoTime where
  year : Nat
  month : Nat
  day : Nat
  deriving DecidableEq, Repr

/-- Numeric value of a decimal digit character. -/
def digitVal (c : Char) : Nat := c.toNat - '0'.toNat

/-- Timezone part of an RFC3339 timestamp: `Z` or `±hh:mm`. -/
def zoneOk : List Char → Bool
  | ['Z'] => true
  | [c, o1, o2, ':', o3, o4] =>
    (c == '+' || c == '-') && o1.isDigit && o2.isDigit && o3.isDigit && o4.isDigit
  | _ => false

/-- Clock part `hh:mm:ss` of an RFC3339 timestamp followed by a zone. -/
def timeOk : List Char → Bool
  | h1 :: h2 :: ':' :: m1 :: m2 :: ':' :: s1 :: s2 :: rest =>
    h1.isDigit && h2.isDigit && m1.isDigit && m2.isDigit && s1.isDigit && s2.isDigit
      && zoneOk rest
  | _ => false

/-- Modelled from the Go standard library (external to this repository):
`time.Parse(time.RFC3339, s)`, restricted to the fields the program uses
(year, month, day).  Accepts `YYYY-MM-DDThh:mm:ss` followed by `Z` or a
`±hh:mm` offset; returns `none` on any parse error.  The claims about the
program are conditional on the parse outcome, so the exact accepted
language beyond this shape is not relied upon. -/
def parseRFC3339 (s : String) : Option GoTime :=
  match s.data with
  | y1 :: y2 :: y3 :: y4 :: '-' :: m1 :: m2 :: '-' :: d1 :: d2 :: 'T' :: rest =>
    if y1.isDigit && y2.isDigit && y3.isDigit && y4.isDigit
        && m1.isDigit && m2.isDigit && d1.isDigit && d2.isDigit && timeOk rest then
      let month := 10 * digitVal m1 + digitVal m2
      let day := 10 * digitVal d1 + digitVal d2
      if 1 ≤ month ∧ month ≤ 12 ∧ 1 ≤ day ∧ day ≤ 31 then
        some ⟨1000 * digitVal y1 + 100 * digitVal y2 + 10 * digitVal y3 + digitVal y4,
              month, day⟩
      else none
    else none
  | _ => none

/-- Modelled from the Go standard library (external to this repository):
`time.Month.String()` for the months 1..12. -/
def monthName : Nat → String
  | 1 => "January"
  | 2 => "February"
  | 3 => "March"
  | 4 => "April"
  | 5 => "May"
  | 6 => "June"
  | 7 => "July"
  | 8 => "August"
  | 9 => "September"
  | 10 => "October"
  | 11 => "November"
  | 12 => "December"
  | _ => "unknown month"

/-- Go string slicing `s[i:]`: defined only for `0 ≤ i ≤ len s`; outside
that range Go panics with an out-of-range fault, modelled as `none`.
Strings are treated as their character sequences (identifiers in this
program are ASCII, where Go's byte indexing and character indexing
coincide). -/
def goSliceFrom (s : String) (i : Int) : Option String :=
  if 0 ≤ i ∧ i ≤ (s.length : Int) then some (String.mk (s.data.drop i.toNat))
  else none

/-- Embedding of `getFileNameByTime` (downloader.go lines 42-52).
`none` models the Go panic when `item.Id[len(item.Id)-8:]` is evaluated
with an identifier shorter than 8 bytes; `some (.error e)` models the
parse-failure return; `some (.ok path)` the successful return. -/
def getFileNameByTime (root : String) (item : MediaItem) : Option (Except Err String) :=
  match parseRFC3339 item.mediaMetadata.creationTime with
  | none => some (Except.error "parsing time: not RFC3339")
  | some t =>
    match goSliceFrom item.id ((item.id.length : Int) - 8) with
    | none => none
    | some suffix =>
      some (Except.ok (pathJoin [root, toString t.year, monthName t.month,
        toString t.day ++ "_" ++ suffix]))

/-- Modelled from the Go standard library (external to this repository):
`crypto/md5` followed by `hex.EncodeToString` — a deterministic
32-hex-character digest of the input.  The digest internals are outside
this repository; the program (and every claim) relies only on the digest
being a fixed pure function of the input string, which this model
preserves. -/
def md5Hex (s : String) : String :=
  let h := s.data.foldl (fun a c => (a * 16777619 + c.toNat) % (2 ^ 128)) 2166136261
  let ds := Nat.toDigits 16 h
  String.mk (List.replicate (32 - ds.length) '0' ++ ds)

/-- Embedding of `getFileNameByHash` (downloader.go lines 53-58). -/
def getFileNameByHash (root : String) (item : MediaItem) : String :=
  let hash := md5Hex item.id
  pathJoin [root, String.mk (hash.data.take 4),
    String.mk ((hash.data.drop 4).take 4), String.mk (hash.data.drop 8)]

/-- Embedding of `getFileName` (downloader.go lines 60-66): the
timestamp-based name, with the hash name as fallback on a parse error.
`none` propagates the panic of `getFileNameByTime`. -/
def getFileName (root : String) (item : MediaItem) : Option String :=
  match getFileNameByTime root item with
  | none => none
  | some (Except.ok s) => some s
  | some (Except.error _) => some (getFileNameByHash root item)

/-- Modelled from the Go standard library (external to this repository):
`mime.ExtensionsByType`, a best-effort media-type → extensions table,
with extensions listed in the sorted order Go returns. -/
def extensionsByType (t : String) : List String :=
  if t = "image/gif" then [".gif"]
  else if t = "image/jpeg" then [".jpe", ".jpeg", ".jpg"]
  else if t = "image/png" then [".png"]
  else if t = "video/mp4" then [".mp4"]
  else []

/-- Oracle for the external effects of `createJSON`: the outcome of
`item.MarshalJSON()` (a fallible serializer applied to the item), of
`os.MkdirAll`, and of `ioutil.WriteFile`. -/
structure JsonEnv where
  marshal : MediaItem → Except Err (List Nat)
  mkdir : Option Err
  write : Option Err

/-- Embedding of `createJSON` (downloader.go lines 68-83): if `os.Stat`
reports the sidecar as not existing, marshal the item, create the parent
directories and write the file; on any other stat outcome return nil
without touching the disk. -/
def createJSON (env : JsonEnv) (item : MediaItem) (fileName : String) (d : Disk) :
    Option Err × Disk :=
  match d.stat fileName with
  | .notExist =>
    match env.marshal item with
    | .error e => (some e, d)
    | .ok bs =>
      match env.mkdir with
      | some e => (some e, d)
      | none =>
        match env.write with
        | some e => (some e, d)
        | none => (none, d.setFile fileName bs)
  | _ => (none, d)

/-- An HTTP response as `createImage` observes it: the declared
`ContentLength` (an `int64`, `-1` when unknown) and the body bytes that
`io.Copy` would drain from it. -/
structure HttpResponse where
  contentLength : Int
  body : List Nat
  deriving DecidableEq, Repr

/-- Oracle for the external effects of `createImage`: the outcome of
`http.Get` for each URL, of `os.Create`, and of `io.Copy` (`none` means
the copy completes; `some (e, k)` means it fails with error `e` after
writing the first `k` body bytes). -/
structure ImgEnv where
  get : String → Except Err HttpResponse
  create : Option Err
  copyErr : Option (Err × Nat)

/-- Outcome of `createImage`: the returned error (if any), the disk and
stats afterwards, and whether `response.Body.Close()` ran before the
function returned.  The Go code registers `defer response.Body.Close()`
only at line 124, after the early returns at lines 106, 112 and 120, so
`bodyClosed` records on which paths the close actually happens. -/
structure CIResult where
  res : Option Err
  disk : Disk
  stats : Stats
  bodyClosed : Bool
  deriving DecidableEq, Repr

/-- Tail of `createImage` (downloader.go lines 117-135): `os.Create`
(which truncates an existing file), then `io.Copy` of the response body,
then the `downloaded` and `totalsize` counter updates.  `totalsize` is a
Go `uint64`, hence the explicit wrap-around. -/
def createImageWrite (response : HttpResponse) (fileName : String) (env : ImgEnv)
    (d : Disk) (st : Stats) : CIResult :=
  match env.create with
  | some e => ⟨some e, d, st, false⟩
  | none =>
    let d1 := d.setFile fileName []
    match env.copyErr with
    | some (e, k) => ⟨some e, d1.setFile fileName (response.body.take k), st, true⟩
    | none =>
      let n := response.body.length
      ⟨none, d1.setFile fileName response.body,
        { st with downloaded := st.downloaded + 1,
                  totalsize := (st.totalsize + n) % (2 ^ 64) }, true⟩

/-- Embedding of `createImage` (downloader.go lines 85-136): fetch the
item's content (the `=dv` URL variant when the item is a video, `=d`
otherwise), then compare an existing file's size with the response
content-length and skip the download when they are equal; otherwise
re-create the file and copy the body into it. -/
def createImage (item : MediaItem) (fileName : String) (env : ImgEnv)
    (d : Disk) (st : Stats) : CIResult :=
  let url := if item.mediaMetadata.video then item.baseUrl ++ "=dv"
             else item.baseUrl ++ "=d"
  match env.get url with
  | .error e => ⟨some e, d, st, false⟩
  | .ok response =>
    match d.stat fileName with
    | .found size =>
      if response.contentLength = (size : Int) then ⟨none, d, st, false⟩
      else createImageWrite response fileName env d st
    | .otherError e => ⟨some e, d, st, false⟩
    | .notExist => createImageWrite response fileName env d st

/-- Oracles for everything external that persisting one item touches. -/
structure ItemEnv where
  json : JsonEnv
  img : ImgEnv

/-- Outcome of `downloadItem`: the returned error, the disk and stats
afterwards, whether the payload fetch (`createImage`) was attempted at
all, and whether the response body was closed (meaningful only when the
fetch was attempted). -/
structure DIResult where
  res : Option Err
  disk : Disk
  stats : Stats
  fetchAttempted : Bool
  bodyClosed : Bool
  deriving DecidableEq, Repr

/-- Embedding of `downloadItem` (downloader.go lines 138-152): compute the
base name, derive the sidecar name (`+ ".json"`) and the payload name
(`+` the first extension for the item's MIME type, when one is known),
write the sidecar, then the payload.  `none` propagates the panic of
`getFileName`. -/
def downloadItem (o : Options) (item : MediaItem) (env : ItemEnv)
    (d : Disk) (st : Stats) : Option DIResult :=
  match getFileName o.backupFolder item with
  | none => none
  | some name =>
    let jsonName := name ++ ".json"
    let imageName :=
      match extensionsByType item.mimeType with
      | [] => name
      | e :: _ => name ++ e
    match createJSON env.json item jsonName d with
    | (some e, d1) => some ⟨some e, d1, st, false, false⟩
    | (none, d1) =>
      let r := createImage item imageName env.img d1 st
      some ⟨r.res, r.disk, r.stats, true, r.bodyClosed⟩

/-- One response of the external listing service
(`svc.MediaItems.Search(req).Do()`): the page's items (each with the
oracles for its own persistence effects) and the continuation token. -/
structure Page where
  mediaItems : List (MediaItem × ItemEnv)
  nextPageToken : String

/-- Observable events of a run, in order: the per-page progress log line,
the throttle sleep, the page fetch (with the token it was issued with),
the per-item failure log line, and the final summary log line. -/
inductive Event where
  | progress (total downloaded errors totalsize : Nat)
  | sleep (seconds : Nat)
  | fetch (pageToken : String)
  | failLog (id : String) (e : Err)
  | summary (total downloaded errors totalsize : Nat)
  deriving DecidableEq, Repr

/-- Whether an event is a page fetch. -/
def Event.isFetch : Event → Bool
  | .fetch _ => true
  | _ => false

/-- Whether an event is a throttle sleep. -/
def Event.isSleep : Event → Bool
  | .sleep _ => true
  | _ => false

/-- Whether an event is a progress log line. -/
def Event.isProgress : Event → Bool
  | .progress _ _ _ _ => true
  | _ => false

/-- Number of page fetches recorded in a trace. -/
def fetchCount (t : List Event) : Nat := t.countP Event.isFetch

/-- Outcome of the inner per-page item loop (downloader.go lines
183-194): disk and stats afterwards, the value of `hasMore` when the loop
ends (`false` exactly when the item cap broke out of it), and the item
log events emitted. -/
structure PIRes where
  disk : Disk
  stats : Stats
  hasMore : Bool
  events : List Event
  deriving Repr

/-- Embedding of the inner loop of `DownloadAll` over one page's items
(downloader.go lines 183-194): increment `total`, stop when it exceeds
`Options.MaxItems`, otherwise persist the item, counting and logging a
per-item failure and continuing.  `none` propagates a panic. -/
def processItems (o : Options) : List (MediaItem × ItemEnv) → Disk → Stats → Option PIRes
  | [], d, st => some ⟨d, st, true, []⟩
  | (m, env) :: rest, d, st =>
    let st1 := { st with total := st.total + 1 }
    if o.maxItems < st1.total then some ⟨d, st1, false, []⟩
    else
      match downloadItem o m env d st1 with
      | none => none
      | some r =>
        match r.res with
        | some e =>
          match processItems o rest r.disk { r.stats with errors := r.stats.errors + 1 } with
          | none => none
          | some pr => some ⟨pr.disk, pr.stats, pr.hasMore, Event.failLog m.id e :: pr.events⟩
        | none =>
          match processItems o rest r.disk r.stats with
          | none => none
          | some pr => some pr

/-- Outcome of a run (or of the remainder of a run): returned error,
final disk and stats, and the emitted event trace. -/
structure RunResult where
  res : Option Err
  disk : Disk
  stats : Stats
  trace : List Event
  deriving Repr

/-- Embedding of the `for hasMore` loop of `DownloadAll` (downloader.go
lines 175-199), entered with `hasMore = true`: log progress, sleep the
throttle interval, fetch the next page (the successive responses of the
external service are the list `resps`; an exhausted list is modelled as a
transport error), process its items, and continue while the cap was not
reached and the continuation token is non-empty. -/
def runLoop (o : Options) : List (Except Err Page) → String → Disk → Stats → Option RunResult
  | [], tok, d, st =>
    some ⟨some "model: no response from service", d, st,
      [Event.progress st.total st.downloaded st.errors st.totalsize,
       Event.sleep o.throttle, Event.fetch tok]⟩
  | .error e :: _, tok, d, st =>
    some ⟨some e, d, st,
      [Event.progress st.total st.downloaded st.errors st.totalsize,
       Event.sleep o.throttle, Event.fetch tok]⟩
  | .ok page :: rest, tok, d, st =>
    match processItems o page.mediaItems d st with
    | none => none
    | some pr =>
      if pr.hasMore && !(page.nextPageToken == "") then
        match runLoop o rest page.nextPageToken pr.disk pr.stats with
        | none => none
        | some r =>
          some ⟨r.res, r.disk, r.stats,
            Event.progress st.total st.downloaded st.errors st.totalsize
              :: Event.sleep o.throttle :: Event.fetch tok :: (pr.events ++ r.trace)⟩
      else
        some ⟨none, pr.disk, pr.stats,
          Event.progress st.total st.downloaded st.errors st.totalsize
            :: Event.sleep o.throttle :: Event.fetch tok :: pr.events⟩

/-- Embedding of `DownloadAll` (downloader.go lines 168-204): reset the
stats, run the pagination loop from the empty token, and on the normal
(non-error) exit log the final summary line. -/
def DownloadAll (o : Options) (resps : List (Except Err Page)) (d : Disk) :
    Option RunResult :=
  match runLoop o resps "" d ⟨0, 0, 0, 0⟩ with
  | none => none
  | some r =>
    match r.res with
    | some _ => some r
    | none =>
      some ⟨none, r.disk, r.stats,
        r.trace ++ [Event.summary r.stats.total r.stats.downloaded r.stats.errors
          r.stats.totalsize]⟩

/-- Every page fetch in the trace sits at the end of a
progress-sleep-fetch block: the event right before it is the throttle
sleep, and the one before that the progress line. -/
def sleepDelayedFetches (t : List Event) : Prop :=
  ∀ i tok, t.get? i = some (Event.fetch tok) →
    ∃ j, i = j + 2 ∧ (∃ s, t.get? (j + 1) = some (Event.sleep s)) ∧
      (∃ a b c e, t.get? j = some (Event.progress a b c e))

/-- No page fetch is immediately followed by a throttle sleep (the sleep
precedes, never follows, the fetch). -/
def noSleepAfterFetch (t : List Event) : Prop :=
  ∀ i tok s, t.get? i = some (Event.fetch tok) →
    t.get? (i + 1) ≠ some (Event.sleep s)

/-- Every throttle sleep is immediately preceded by a progress line. -/
def progressBeforeSleep (t : List Event) : Prop :=
  ∀ i s, t.get? i = some (Event.sleep s) →
    ∃ j, i = j + 1 ∧ ∃ a b c e, t.get? j = some (Event.progress a b c e)

/-- Structural well-throttledness of a trace: it is a sequence of
progress-sleep-fetch blocks interleaved with fetch-free, sleep-free
item events and closed by a fetch-free, sleep-free tail. -/
inductive Throttled : List Event → Prop where
  | tail (t : List Event)
      (h : ∀ e ∈ t, e.isFetch = false ∧ e.isSleep = false) : Throttled t
  | cons (e : Event) (t : List Event)
      (hf : e.isFetch = false) (hs : e.isSleep = false)
      (ht : Throttled t) : Throttled (e :: t)
  | block (p s : Event) (tok : String) (t : List Event)
      (hp : p.isProgress = true) (hs : s.isSleep = true)
      (ht : Throttled t) : Throttled (p :: s :: Event.fetch tok :: t)

/-! Concrete fixtures used by the witness theorems. -/

/-- A media item with a parseable RFC3339 creation time and a 16-char id. -/
def itemW : MediaItem := ⟨"ABCDEFGH12345678", "x/y", "http://b", ⟨"2019-07-21T10:15:30Z", false⟩⟩

/-- A media item with a parseable creation time but a 3-byte id. -/
def itemShortW : MediaItem := ⟨"abc", "x/y", "http://b", ⟨"2020-01-02T03:04:05Z", false⟩⟩

/-- A media item whose creation time does not parse. -/
def itemBadW : MediaItem := ⟨"someid", "x/y", "http://b", ⟨"not-a-time", false⟩⟩

/-- The path `getFileName` computes for `itemW` under root `"root"`. -/
def nameW : String := "root/2019/July/21_12345678"

/-- Fixture configuration: root `"root"`, cap 10, throttle 2. -/
def optsW : Options := ⟨"root", 10, 5, 2, ""⟩

/-- Sidecar oracles where everything succeeds. -/
def jsonEnvW : JsonEnv := ⟨fun _ => .ok [1, 2, 3], none, none⟩

/-- Payload oracles where the fetch returns 3 bytes and all IO succeeds. -/
def imgEnvW : ImgEnv := ⟨fun _ => .ok ⟨3, [7, 8, 9]⟩, none, none⟩

/-- Item oracles where everything succeeds. -/
def envW : ItemEnv := ⟨jsonEnvW, imgEnvW⟩

/-- Item oracles where `MarshalJSON` fails. -/
def envMarshalFailW : ItemEnv := ⟨⟨fun _ => .error "boom", none, none⟩, imgEnvW⟩

/-- Item oracles where `ioutil.WriteFile` fails. -/
def envWriteFailW : ItemEnv := ⟨⟨fun _ => .ok [1, 2, 3], none, some "wfail"⟩, imgEnvW⟩

/-- An empty disk. -/
def diskEmptyW : Disk := ⟨[], []⟩

/-- A disk already holding a 2-byte sidecar at path `"p"`. -/
def diskJsonW : Disk := ⟨[("p", [1, 2])], []⟩

/-- A disk where `os.Stat "q"` fails with a permission error. -/
def diskPermW : Disk := ⟨[], [("q", "permission denied")]⟩

/-- A disk holding a 1-byte (partial) payload at `itemW`'s path. -/
def diskPartialW : Disk := ⟨[(nameW, [1])], []⟩

/-- Zeroed run statistics. -/
def stW : Stats := ⟨0, 0, 0, 0⟩

/-- Fixture configuration with an item cap of 1. -/
def optsCapW : Options := ⟨"root", 1, 5, 2, ""⟩

/-- The disk after persisting `itemW` once on an empty disk (sidecar
written, payload truncated then written). -/
def diskOneW : Disk :=
  ⟨[(nameW, [7, 8, 9]), (nameW, []), (nameW ++ ".json", [1, 2, 3])], []⟩

/-- The inner-loop outcome of processing `[(itemW, envW)]` from zeroed
stats on an empty disk. -/
def prOneW : PIRes := ⟨diskOneW, ⟨1, 0, 3, 1⟩, true, []⟩

/-- The `downloadItem` outcome for `itemW` when `MarshalJSON` fails. -/
def rFailW : DIResult := ⟨some "boom", diskEmptyW, ⟨1, 0, 0, 0⟩, false, false⟩

/-- A one-item page with a non-empty continuation token. -/
def pageOneW : Page := ⟨[(itemW, envW)], "tk"⟩

/-- A three-item page with a non-empty continuation token. -/
def listThreeW : List (MediaItem × ItemEnv) := [(itemW, envW), (itemW, envW), (itemW, envW)]

/-- The trace of a run over a single empty page. -/
def trW : List Event :=
  [Event.progress 0 0 0 0, Event.sleep 2, Event.fetch "", Event.summary 0 0 0 0]

/-- The outcome of a run over a single empty page. -/
def runW : RunResult := ⟨none, diskEmptyW, ⟨0, 0, 0, 0⟩, trW⟩

/-! Basic lemmas about the disk model. -/

theorem Disk.getFile_setFile_same (d : Disk) (p : String) (c : List Nat) :
    (d.setFile p c).getFile p = some c := by
  simp [Disk.getFile, Disk.setFile, List.lookup]

theorem Disk.getFile_setFile_other (d : Disk) (p q : String) (c : List Nat)
    (h : q ≠ p) : (d.setFile p c).getFile q = d.getFile q := by
  have hq : (q == p) = false := by simpa using h
  simp [Disk.getFile, Disk.setFile, List.lookup, hq]

/-- Claim C10: when the `os.Stat` check on the metadata sidecar path fails
with an error other than not-exist (e.g. a permission error), `createJSON`
returns success without writing anything — the unreadable path is handled
exactly like an already-present sidecar and no error is surfaced. -/
theorem C10_stat_error_is_silent_noop (jenv : JsonEnv) (item : MediaItem)
    (p : String) (d : Disk) (e : Err) (h : d.stat p = StatResult.otherError e) :
    createJSON jenv item p d = (none, d) := by
  simp only [createJSON, h]

/-- Witness for C10 at a concrete unreadable path. -/
theorem C10_witness :
    createJSON jsonEnvW itemW "q" diskPermW = (none, diskPermW) :=
  C10_stat_error_is_silent_noop jsonEnvW itemW "q" diskPermW "permission denied" rfl

/-- Claim C5: the metadata sidecar is written at most once per path — when
the sidecar file already exists, `createJSON` leaves the disk untouched
whatever the serializer would now produce; and when serialization
(`MarshalJSON`) or the sidecar write (`WriteFile`) fails, `downloadItem`
aborts with that error, leaving disk and stats unchanged, without
attempting the payload fetch. -/
theorem C5_sidecar_write_once (o : Options) :
    (∀ (jenv : JsonEnv) (item : MediaItem) (p : String) (d : Disk) (n : Nat),
      d.stat p = StatResult.found n → createJSON jenv item p d = (none, d))
  ∧ (∀ (item : MediaItem) (env : ItemEnv) (d : Disk) (st : Stats) (name : String) (e : Err),
      getFileName o.backupFolder item = some name →
      d.stat (name ++ ".json") = StatResult.notExist →
      env.json.marshal item = Except.error e →
      downloadItem o item env d st = some ⟨some e, d, st, false, false⟩)
  ∧ (∀ (item : MediaItem) (env : ItemEnv) (d : Disk) (st : Stats) (name : String)
      (e : Err) (bs : List Nat),
      getFileName o.backupFolder item = some name →
      d.stat (name ++ ".json") = StatResult.notExist →
      env.json.marshal item = Except.ok bs →
      env.json.mkdir = none →
      env.json.write = some e →
      downloadItem o item env d st = some ⟨some e, d, st, false, false⟩) := by
  refine ⟨fun jenv item p d n h => ?_, fun item env d st name e h1 h2 h3 => ?_,
    fun item env d st name e bs h1 h2 h3 h4 h5 => ?_⟩
  · simp only [createJSON, h]
  · simp only [downloadItem, h1, createJSON, h2, h3]
  · simp only [downloadItem, h1, createJSON, h2, h3, h4, h5]

/-- Witness for C5 at concrete inputs: an existing sidecar is untouched,
and a failing `MarshalJSON` or a failing sidecar write aborts the item
with the payload fetch unattempted. -/
theorem C5_witness :
    createJSON jsonEnvW itemW "p" diskJsonW = (none, diskJsonW)
  ∧ downloadItem optsW itemW envMarshalFailW diskEmptyW stW
      = some ⟨some "boom", diskEmptyW, stW, false, false⟩
  ∧ downloadItem optsW itemW envWriteFailW diskEmptyW stW
      = some ⟨some "wfail", diskEmptyW, stW, false, false⟩ :=
  ⟨(C5_sidecar_write_once optsW).1 jsonEnvW itemW "p" diskJsonW 2 rfl,
   (C5_sidecar_write_once optsW).2.1 itemW envMarshalFailW diskEmptyW stW nameW "boom"
     rfl rfl rfl,
   (C5_sidecar_write_once optsW).2.2 itemW envWriteFailW diskEmptyW stW nameW "wfail"
     [1, 2, 3] rfl rfl rfl rfl rfl⟩

/-- Claim C1 (divergence exhibited at a concrete failing input): for an
item whose payload file already exists with size equal to the response
content-length (here a 3-byte file against content-length 3),
`createImage` does return success, leaves the disk and every counter
unchanged — but it returns **without** closing the response body, because
`defer response.Body.Close()` (line 124) is only registered after the
early `return nil` at line 106.  The final `false` component is the
unclosed body, contradicting the claim's last conjunct. -/
theorem C1_skip_leaves_body_unclosed :
    createImage itemW nameW imgEnvW ⟨[(nameW, [9, 9, 9])], []⟩ stW
      = ⟨none, ⟨[(nameW, [9, 9, 9])], []⟩, stW, false⟩ := by
  rfl

/-- Claim C4: when the payload file exists with a size different from the
response content-length, `createImage` truncates and fully overwrites it
(final content is exactly the response body, other paths untouched), and
on a successful copy it increments the `downloaded` counter by one and
adds the copied bytes to the cumulative byte counter. -/
theorem C4_size_mismatch_redownloads (item : MediaItem) (p : String) (env : ImgEnv)
    (d : Disk) (st : Stats) (resp : HttpResponse) (n : Nat)
    (hget : env.get (if item.mediaMetadata.video then item.baseUrl ++ "=dv"
      else item.baseUrl ++ "=d") = Except.ok resp)
    (hstat : d.stat p = StatResult.found n)
    (hne : resp.contentLength ≠ (n : Int))
    (hcreate : env.create = none)
    (hcopy : env.copyErr = none) :
    ∃ d2, createImage item p env d st =
        ⟨none, d2, { st with downloaded := st.downloaded + 1,
                             totalsize := (st.totalsize + resp.body.length) % (2 ^ 64) },
         true⟩
      ∧ d2.getFile p = some resp.body
      ∧ ∀ q, q ≠ p → d2.getFile q = d.getFile q := by
  refine ⟨(d.setFile p []).setFile p resp.body, ?_, ?_, ?_⟩
  · simp only [createImage, hget, hstat, if_neg hne, createImageWrite, hcreate, hcopy]
  · exact Disk.getFile_setFile_same _ _ _
  · intro q hq
    rw [Disk.getFile_setFile_other _ _ _ _ hq, Disk.getFile_setFile_other _ _ _ _ hq]

/-- Witness for C4: a 1-byte stale file against a 3-byte response is fully
overwritten and both counters move. -/
theorem C4_witness :
    ∃ d2, createImage itemW nameW imgEnvW diskPartialW stW
        = ⟨none, d2, { stW with downloaded := stW.downloaded + 1,
                                totalsize := (stW.totalsize + [7, 8, 9].length) % (2 ^ 64) },
           true⟩
      ∧ d2.getFile nameW = some [7, 8, 9]
      ∧ ∀ q, q ≠ nameW → d2.getFile q = diskPartialW.getFile q :=
  C4_size_mismatch_redownloads itemW nameW imgEnvW diskPartialW stW ⟨3, [7, 8, 9]⟩ 1
    rfl rfl (by decide) rfl rfl

/-- Claim C6: path computation is deterministic — `getFileName` is a pure
function of the root, the id and the creation timestamp (items agreeing on
id and timestamp get identical paths); when the timestamp parses and the
id slice is in range the path is exactly
`<root>/<year>/<month-name>/<day>_<last-8-chars-of-id>`; and when the
timestamp does not parse the result is the hash-fallback path, itself a
function of the root and the id alone. -/
theorem C6_path_deterministic (root : String) (item : MediaItem) :
    (∀ item2 : MediaItem, item2.id = item.id →
      item2.mediaMetadata.creationTime = item.mediaMetadata.creationTime →
      getFileName root item2 = getFileName root item)
  ∧ (∀ t : GoTime, parseRFC3339 item.mediaMetadata.creationTime = some t →
      8 ≤ item.id.length →
      getFileName root item = some (pathJoin [root, toString t.year,
        monthName t.month,
        toString t.day ++ "_" ++ String.mk (item.id.data.drop (item.id.length - 8))]))
  ∧ (parseRFC3339 item.mediaMetadata.creationTime = none →
      getFileName root item = some (getFileNameByHash root item))
  ∧ (∀ item2 : MediaItem, item2.id = item.id →
      getFileNameByHash root item2 = getFileNameByHash root item) := by
  refine ⟨fun item2 h1 h2 => ?_, fun t hp h8 => ?_, fun hp => ?_, fun item2 h1 => ?_⟩
  · simp only [getFileName, getFileNameByTime, getFileNameByHash, md5Hex, h1, h2]
  · have hcond : 0 ≤ (item.id.length : Int) - 8 ∧
        (item.id.length : Int) - 8 ≤ (item.id.length : Int) := by omega
    have htoNat : ((item.id.length : Int) - 8).toNat = item.id.length - 8 := by omega
    simp only [getFileName, getFileNameByTime, hp, goSliceFrom, if_pos hcond, htoNat]
  · simp only [getFileName, getFileNameByTime, hp]
  · simp only [getFileNameByHash, md5Hex, h1]

/-- Witness for C6: a concrete item's computed path, its timestamp-based
form, the hash fallback of an unparseable item, and the id-only
dependence of both branches. -/
theorem C6_witness :
    (getFileName "root" ⟨"ABCDEFGH12345678", "a/b", "u", ⟨"2019-07-21T10:15:30Z", true⟩⟩
      = getFileName "root" itemW)
  ∧ (getFileName "root" itemW
      = some (pathJoin ["root", toString (2019 : Nat), monthName 7,
          toString (21 : Nat) ++ "_" ++
            String.mk (itemW.id.data.drop (itemW.id.length - 8))]))
  ∧ (getFileName "root" itemBadW = some (getFileNameByHash "root" itemBadW))
  ∧ (getFileNameByHash "root" ⟨"someid", "c/d", "v", ⟨"", true⟩⟩
      = getFileNameByHash "root" itemBadW) :=
  ⟨(C6_path_deterministic "root" itemW).1 _ rfl rfl,
   (C6_path_deterministic "root" itemW).2.1 ⟨2019, 7, 21⟩ rfl (by decide),
   (C6_path_deterministic "root" itemBadW).2.2.1 rfl,
   (C6_path_deterministic "root" itemBadW).2.2.2 _ rfl⟩

/-- Claim C9: with a parseable creation timestamp the naming computation
slices `item.Id[len(item.Id)-8:]`; this is well-defined exactly under the
precondition that the identifier is at least 8 bytes long — for a shorter
identifier the slice lower bound is negative and the operation panics
(modelled as `none`), so `getFileNameByTime` is not total without that
precondition. -/
theorem C9_id_slice_needs_length_8 (root : String) (item : MediaItem) (t : GoTime)
    (hp : parseRFC3339 item.mediaMetadata.creationTime = some t) :
    (8 ≤ item.id.length → getFileNameByTime root item
      = some (Except.ok (pathJoin [root, toString t.year, monthName t.month,
          toString t.day ++ "_" ++ String.mk (item.id.data.drop (item.id.length - 8))])))
  ∧ (item.id.length < 8 → getFileNameByTime root item = none) := by
  constructor
  · intro h8
    have hcond : 0 ≤ (item.id.length : Int) - 8 ∧
        (item.id.length : Int) - 8 ≤ (item.id.length : Int) := by omega
    have htoNat : ((item.id.length : Int) - 8).toNat = item.id.length - 8 := by omega
    simp only [getFileNameByTime, hp, goSliceFrom, if_pos hcond, htoNat]
  · intro h8
    have hcond : ¬(0 ≤ (item.id.length : Int) - 8 ∧
        (item.id.length : Int) - 8 ≤ (item.id.length : Int)) := by omega
    simp only [getFileNameByTime, hp, goSliceFrom, if_neg hcond]

/-- Witness for C9: a valid-timestamp item with a 3-byte identifier makes
the slice panic (`none`); the same theorem's positive direction at a
16-byte identifier is exercised through its first conjunct. -/
theorem C9_witness :
    (8 ≤ itemShortW.id.length → getFileNameByTime "root" itemShortW
      = some (Except.ok (pathJoin ["root", toString (2020 : Nat), monthName 1,
          toString (2 : Nat) ++ "_" ++
            String.mk (itemShortW.id.data.drop (itemShortW.id.length - 8))])))
  ∧ (itemShortW.id.length < 8 → getFileNameByTime "root" itemShortW = none) :=
  C9_id_slice_needs_length_8 "root" itemShortW ⟨2020, 1, 2⟩ rfl

/-! Helper lemmas about the driver loop. -/

theorem createImageWrite_stats (resp : HttpResponse) (p : String) (env : ImgEnv)
    (d : Disk) (st : Stats) :
    (createImageWrite resp p env d st).stats.total = st.total ∧
    (createImageWrite resp p env d st).stats.errors = st.errors := by
  unfold createImageWrite
  repeat' split
  all_goals exact ⟨rfl, rfl⟩

theorem createImage_stats (item : MediaItem) (p : String) (env : ImgEnv)
    (d : Disk) (st : Stats) :
    (createImage item p env d st).stats.total = st.total ∧
    (createImage item p env d st).stats.errors = st.errors := by
  unfold createImage
  dsimp only
  repeat' split
  all_goals
    first
      | exact ⟨rfl, rfl⟩
      | exact createImageWrite_stats _ _ _ _ _

theorem downloadItem_stats (o : Options) (m : MediaItem) (env : ItemEnv)
    (d : Disk) (st : Stats) (r : DIResult)
    (h : downloadItem o m env d st = some r) :
    r.stats.total = st.total ∧ r.stats.errors = st.errors := by
  unfold downloadItem at h
  dsimp only at h
  repeat' split at h
  all_goals
    first
      | exact Option.noConfusion h
      | (injection h with h
         subst h
         exact ⟨rfl, rfl⟩)
      | (injection h with h
         subst h
         exact createImage_stats _ _ _ _ _)

theorem processItems_total (o : Options) (items : List (MediaItem × ItemEnv)) :
    ∀ (d : Disk) (st : Stats) (pr : PIRes),
    processItems o items d st = some pr → pr.hasMore = true →
    pr.stats.total = st.total + items.length := by
  induction items with
  | nil =>
    intro d st pr h hm
    injection h with h
    subst h
    simp
  | cons a rest ih =>
    intro d st pr h hm
    obtain ⟨m, env⟩ := a
    simp only [processItems] at h
    split at h
    · injection h with h
      subst h
      simp at hm
    · cases hd : downloadItem o m env d { st with total := st.total + 1 } with
      | none =>
        rw [hd] at h
        exact Option.noConfusion h
      | some r =>
        rw [hd] at h
        dsimp only at h
        cases hr : r.res with
        | some e =>
          rw [hr] at h
          dsimp only at h
          cases hp2 : processItems o rest r.disk { r.stats with errors := r.stats.errors + 1 } with
          | none =>
            rw [hp2] at h
            exact Option.noConfusion h
          | some pr2 =>
            rw [hp2] at h
            dsimp only at h
            injection h with h
            subst h
            have h1 := ih r.disk { r.stats with errors := r.stats.errors + 1 } pr2 hp2
              (by simpa using hm)
            have h2 := (downloadItem_stats o m env d _ r hd).1
            dsimp only at h1 h2 ⊢
            simp only [List.length_cons]
            omega
        | none =>
          rw [hr] at h
          dsimp only at h
          cases hp2 : processItems o rest r.disk r.stats with
          | none =>
            rw [hp2] at h
            exact Option.noConfusion h
          | some pr2 =>
            rw [hp2] at h
            dsimp only at h
            injection h with h
            subst h
            have h1 := ih r.disk r.stats pr2 hp2 hm
            have h2 := (downloadItem_stats o m env d _ r hd).1
            dsimp only at h1 h2 ⊢
            simp only [List.length_cons]
            omega

theorem processItems_events (o : Options) (items : List (MediaItem × ItemEnv)) :
    ∀ (d : Disk) (st : Stats) (pr : PIRes),
    processItems o items d st = some pr →
    ∀ e ∈ pr.events, e.isFetch = false ∧ e.isSleep = false := by
  induction items with
  | nil =>
    intro d st pr h
    injection h with h
    subst h
    intro e he
    simp at he
  | cons a rest ih =>
    intro d st pr h
    obtain ⟨m, env⟩ := a
    simp only [processItems] at h
    split at h
    · injection h with h
      subst h
      intro e he
      simp at he
    · cases hd : downloadItem o m env d { st with total := st.total + 1 } with
      | none =>
        rw [hd] at h
        exact Option.noConfusion h
      | some r =>
        rw [hd] at h
        dsimp only at h
        cases hr : r.res with
        | some e0 =>
          rw [hr] at h
          dsimp only at h
          cases hp2 : processItems o rest r.disk { r.stats with errors := r.stats.errors + 1 } with
          | none =>
            rw [hp2] at h
            exact Option.noConfusion h
          | some pr2 =>
            rw [hp2] at h
            dsimp only at h
            injection h with h
            subst h
            intro e he
            dsimp only at he
            rcases List.mem_cons.mp he with h1 | h1
            · subst h1
              exact ⟨rfl, rfl⟩
            · exact ih r.disk _ pr2 hp2 e h1
        | none =>
          rw [hr] at h
          dsimp only at h
          cases hp2 : processItems o rest r.disk r.stats with
          | none =>
            rw [hp2] at h
            exact Option.noConfusion h
          | some pr2 =>
            rw [hp2] at h
            dsimp only at h
            injection h with h
            subst h
            intro e he
            exact ih r.disk r.stats pr2 hp2 e he

theorem processItems_append (o : Options) (xs ys : List (MediaItem × ItemEnv)) :
    ∀ (d : Disk) (st : Stats),
    processItems o (xs ++ ys) d st =
      match processItems o xs d st with
      | none => none
      | some pr =>
        if pr.hasMore then
          match processItems o ys pr.disk pr.stats with
          | none => none
          | some pr2 => some ⟨pr2.disk, pr2.stats, pr2.hasMore, pr.events ++ pr2.events⟩
        else some pr := by
  induction xs with
  | nil =>
    intro d st
    simp only [List.nil_append, processItems]
    cases hp : processItems o ys d st with
    | none => simp
    | some pr2 => simp
  | cons a xs ih =>
    intro d st
    obtain ⟨m, env⟩ := a
    simp only [List.cons_append, processItems]
    split
    · simp
    · cases hd : downloadItem o m env d { st with total := st.total + 1 } with
      | none => simp
      | some r =>
        dsimp only
        cases hr : r.res with
        | some e0 =>
          dsimp only
          simp only [List.append_eq]
          rw [ih]
          cases hp : processItems o xs r.disk { r.stats with errors := r.stats.errors + 1 } with
          | none => simp
          | some pr1 =>
            dsimp only
            by_cases hm : pr1.hasMore = true
            · cases hp2 : processItems o ys pr1.disk pr1.stats with
              | none => simp [hm]
              | some pr2 => simp [hm]
            · simp [hm]
        | none =>
          dsimp only
          simp only [List.append_eq]
          rw [ih]
          cases hp : processItems o xs r.disk r.stats with
          | none => simp
          | some pr1 =>
            dsimp only
            by_cases hm : pr1.hasMore = true
            · cases hp2 : processItems o ys pr1.disk pr1.stats with
              | none => simp [hm]
              | some pr2 => simp [hm]
            · simp [hm]

theorem Event.isSleep_iff {e : Event} : e.isSleep = true ↔ ∃ n, e = Event.sleep n := by
  cases e <;> simp [Event.isSleep]

theorem Event.isProgress_iff {e : Event} :
    e.isProgress = true ↔ ∃ a b c dd, e = Event.progress a b c dd := by
  cases e <;> simp [Event.isProgress]

theorem throttled_sdf {t : List Event} (h : Throttled t) : sleepDelayedFetches t := by
  induction h with
  | tail t ht =>
    intro i tok hi
    exact absurd (ht _ (List.get?_mem hi)).1 (by simp [Event.isFetch])
  | cons e t hf hs ht ih =>
    intro i tok hi
    cases i with
    | zero =>
      rw [List.get?_cons_zero] at hi
      injection hi with hi
      subst hi
      simp [Event.isFetch] at hf
    | succ i =>
      rw [List.get?_cons_succ] at hi
      obtain ⟨j, hij, ⟨s, hs1⟩, ⟨a, b, c, e2, hp1⟩⟩ := ih i tok hi
      refine ⟨j + 1, by omega, ⟨s, ?_⟩, ⟨a, b, c, e2, ?_⟩⟩
      · rw [List.get?_cons_succ]
        exact hs1
      · rw [List.get?_cons_succ]
        exact hp1
  | block p s tok2 t hp hs ht ih =>
    intro i tok hi
    match i with
    | 0 =>
      rw [List.get?_cons_zero] at hi
      injection hi with hi
      subst hi
      simp [Event.isProgress] at hp
    | 1 =>
      rw [List.get?_cons_succ, List.get?_cons_zero] at hi
      injection hi with hi
      subst hi
      simp [Event.isSleep] at hs
    | 2 =>
      obtain ⟨n, hn⟩ := Event.isSleep_iff.mp hs
      obtain ⟨a, b, c, dd, hpr⟩ := Event.isProgress_iff.mp hp
      exact ⟨0, rfl, ⟨n, by simp [hn]⟩, ⟨a, b, c, dd, by simp [hpr]⟩⟩
    | (i + 3) =>
      simp only [List.get?_cons_succ] at hi
      obtain ⟨j, hij, ⟨s2, hs1⟩, ⟨a, b, c, e2, hp1⟩⟩ := ih i tok hi
      refine ⟨j + 3, by omega, ⟨s2, ?_⟩, ⟨a, b, c, e2, ?_⟩⟩
      · simp only [List.get?_cons_succ]
        exact hs1
      · simp only [List.get?_cons_succ]
        exact hp1

theorem throttled_head_not_sleep {t : List Event} (h : Throttled t) (e : Event)
    (he : t.get? 0 = some e) : e.isSleep = false := by
  cases h with
  | tail t ht => exact (ht _ (List.get?_mem he)).2
  | cons e2 t hf hs ht =>
    rw [List.get?_cons_zero] at he
    injection he with he
    subst he
    exact hs
  | block p s tok t hp hs ht =>
    rw [List.get?_cons_zero] at he
    injection he with he
    subst he
    obtain ⟨a, b, c, dd, hpr⟩ := Event.isProgress_iff.mp hp
    subst hpr
    rfl

theorem throttled_nsaf {t : List Event} (h : Throttled t) : noSleepAfterFetch t := by
  induction h with
  | tail t ht =>
    intro i tok s hi
    exact absurd (ht _ (List.get?_mem hi)).1 (by simp [Event.isFetch])
  | cons e t hf hs ht ih =>
    intro i tok s hi
    cases i with
    | zero =>
      rw [List.get?_cons_zero] at hi
      injection hi with hi
      subst hi
      simp [Event.isFetch] at hf
    | succ i =>
      rw [List.get?_cons_succ] at hi
      rw [List.get?_cons_succ]
      exact ih i tok s hi
  | block p s2 tok2 t hp hs ht ih =>
    intro i tok s hi
    match i with
    | 0 =>
      rw [List.get?_cons_zero] at hi
      injection hi with hi
      subst hi
      simp [Event.isProgress] at hp
    | 1 =>
      rw [List.get?_cons_succ, List.get?_cons_zero] at hi
      injection hi with hi
      subst hi
      simp [Event.isSleep] at hs
    | 2 =>
      simp only [List.get?_cons_succ]
      intro hcon
      have := throttled_head_not_sleep ht _ hcon
      simp [Event.isSleep] at this
    | (i + 3) =>
      simp only [List.get?_cons_succ] at hi
      simp only [List.get?_cons_succ]
      exact ih i tok s hi

theorem throttled_pbs {t : List Event} (h : Throttled t) : progressBeforeSleep t := by
  induction h with
  | tail t ht =>
    intro i s hi
    exact absurd (ht _ (List.get?_mem hi)).2 (by simp [Event.isSleep])
  | cons e t hf hs ht ih =>
    intro i s hi
    cases i with
    | zero =>
      rw [List.get?_cons_zero] at hi
      injection hi with hi
      subst hi
      simp [Event.isSleep] at hs
    | succ i =>
      rw [List.get?_cons_succ] at hi
      obtain ⟨j, hij, ⟨a, b, c, e2, hp1⟩⟩ := ih i s hi
      refine ⟨j + 1, by omega, ⟨a, b, c, e2, ?_⟩⟩
      rw [List.get?_cons_succ]
      exact hp1
  | block p s2 tok2 t hp hs ht ih =>
    intro i s hi
    match i with
    | 0 =>
      rw [List.get?_cons_zero] at hi
      injection hi with hi
      subst hi
      simp [Event.isProgress] at hp
    | 1 =>
      obtain ⟨a, b, c, dd, hpr⟩ := Event.isProgress_iff.mp hp
      exact ⟨0, rfl, ⟨a, b, c, dd, by simp [hpr]⟩⟩
    | 2 =>
      rw [List.get?_cons_succ, List.get?_cons_succ, List.get?_cons_zero] at hi
      exact absurd hi (by simp)
    | (i + 3) =>
      simp only [List.get?_cons_succ] at hi
      obtain ⟨j, hij, ⟨a, b, c, e2, hp1⟩⟩ := ih i s hi
      refine ⟨j + 3, by omega, ⟨a, b, c, e2, ?_⟩⟩
      simp only [List.get?_cons_succ]
      exact hp1

theorem throttled_append_left (xs : List Event) (t : List Event)
    (hx : ∀ e ∈ xs, e.isFetch = false ∧ e.isSleep = false)
    (ht : Throttled t) : Throttled (xs ++ t) := by
  induction xs with
  | nil => simpa using ht
  | cons e xs ih =>
    rw [List.cons_append]
    exact Throttled.cons e _ (hx e (by simp)).1 (hx e (by simp)).2
      (ih (fun e2 he2 => hx e2 (by simp [he2])))

theorem throttled_append_one {t : List Event} (h : Throttled t) (e : Event)
    (hf : e.isFetch = false) (hs : e.isSleep = false) : Throttled (t ++ [e]) := by
  induction h with
  | tail t ht =>
    refine Throttled.tail _ (fun e2 he2 => ?_)
    rcases List.mem_append.mp he2 with h2 | h2
    · exact ht _ h2
    · rw [List.mem_singleton.mp h2]
      exact ⟨hf, hs⟩
  | cons e2 t hf2 hs2 ht ih =>
    rw [List.cons_append]
    exact Throttled.cons e2 _ hf2 hs2 ih
  | block p s tok t hp hs2 ht ih =>
    rw [List.cons_append, List.cons_append, List.cons_append]
    exact Throttled.block p s tok _ hp hs2 ih

theorem get?_append_lt {a : Type} (l1 l2 : List a) (n : Nat) (h : n < l1.length) :
    (l1 ++ l2).get? n = l1.get? n := by
  simp [List.get?_eq_getElem?, List.getElem?_append_left h]

theorem runLoop_throttled (o : Options) (resps : List (Except Err Page)) :
    ∀ (tok : String) (d : Disk) (st : Stats) (r : RunResult),
    runLoop o resps tok d st = some r → Throttled r.trace := by
  induction resps with
  | nil =>
    intro tok d st r h
    injection h with h
    subst h
    exact Throttled.block _ _ _ _ rfl rfl (Throttled.tail _ (by simp))
  | cons resp rest ih =>
    intro tok d st r h
    cases resp with
    | error e =>
      simp only [runLoop] at h
      injection h with h
      subst h
      exact Throttled.block _ _ _ _ rfl rfl (Throttled.tail _ (by simp))
    | ok page =>
      simp only [runLoop] at h
      cases hp : processItems o page.mediaItems d st with
      | none =>
        rw [hp] at h
        exact Option.noConfusion h
      | some pr =>
        rw [hp] at h
        dsimp only at h
        by_cases hc : (pr.hasMore && !(page.nextPageToken == "")) = true
        · rw [if_pos hc] at h
          cases hr : runLoop o rest page.nextPageToken pr.disk pr.stats with
          | none =>
            rw [hr] at h
            exact Option.noConfusion h
          | some r2 =>
            rw [hr] at h
            dsimp only at h
            injection h with h
            subst h
            refine Throttled.block _ _ _ _ rfl rfl ?_
            exact throttled_append_left pr.events r2.trace
              (processItems_events o page.mediaItems d st pr hp)
              (ih page.nextPageToken pr.disk pr.stats r2 hr)
        · rw [if_neg hc] at h
          injection h with h
          subst h
          exact Throttled.block _ _ _ _ rfl rfl
            (Throttled.tail _ (processItems_events o page.mediaItems d st pr hp))

theorem runLoop_trace_head (o : Options) (resps : List (Except Err Page)) (tok : String)
    (d : Disk) (st : Stats) (r : RunResult) (h : runLoop o resps tok d st = some r) :
    ∃ t', r.trace = Event.progress st.total st.downloaded st.errors st.totalsize
      :: Event.sleep o.throttle :: Event.fetch tok :: t' := by
  cases resps with
  | nil =>
    injection h with h
    subst h
    exact ⟨[], rfl⟩
  | cons resp rest =>
    cases resp with
    | error e =>
      simp only [runLoop] at h
      injection h with h
      subst h
      exact ⟨[], rfl⟩
    | ok page =>
      simp only [runLoop] at h
      cases hp : processItems o page.mediaItems d st with
      | none =>
        rw [hp] at h
        exact Option.noConfusion h
      | some pr =>
        rw [hp] at h
        dsimp only at h
        by_cases hc : (pr.hasMore && !(page.nextPageToken == "")) = true
        · rw [if_pos hc] at h
          cases hr : runLoop o rest page.nextPageToken pr.disk pr.stats with
          | none =>
            rw [hr] at h
            exact Option.noConfusion h
          | some r2 =>
            rw [hr] at h
            dsimp only at h
            injection h with h
            subst h
            exact ⟨pr.events ++ r2.trace, rfl⟩
        · rw [if_neg hc] at h
          injection h with h
          subst h
          exact ⟨pr.events, rfl⟩

/-- Claim C2: with `maxItems = N` and a page of `N + k` items (`k ≥ 1`),
the run stops exactly after item `N`: the final stats are those of the
first `N` items except that `total` is `N + 1` (the first over-cap item is
counted before the cap check breaks the loop), the final disk is the disk
after the first `N` items, and exactly one page fetch happens. -/
theorem C2_cap_boundary (o : Options) (items : List (MediaItem × ItemEnv)) (tok : String)
    (rest : List (Except Err Page)) (d : Disk) (N k : Nat) (pr : PIRes)
    (hN : o.maxItems = N) (hlen : items.length = N + k) (hk : 1 ≤ k)
    (hpr : processItems o (items.take N) d ⟨0, 0, 0, 0⟩ = some pr)
    (hm : pr.hasMore = true) :
    pr.stats.total = N ∧
    ∃ tr, DownloadAll o (Except.ok ⟨items, tok⟩ :: rest) d
        = some ⟨none, pr.disk, { pr.stats with total := pr.stats.total + 1 }, tr⟩
      ∧ fetchCount tr = 1 := by
  have htake : (items.take N).length = N := by
    rw [List.length_take]
    omega
  have htot : pr.stats.total = N := by
    have h1 := processItems_total o (items.take N) d ⟨0, 0, 0, 0⟩ pr hpr hm
    rw [htake] at h1
    simpa using h1
  obtain ⟨y, ys, hdrop⟩ : ∃ y ys, items.drop N = y :: ys := by
    have hdl : (items.drop N).length = k := by
      rw [List.length_drop]
      omega
    cases hc : items.drop N with
    | nil =>
      rw [hc] at hdl
      simp at hdl
      omega
    | cons y ys => exact ⟨y, ys, rfl⟩
  obtain ⟨m, env⟩ := y
  have hstep : processItems o ((m, env) :: ys) pr.disk pr.stats
      = some ⟨pr.disk, { pr.stats with total := pr.stats.total + 1 }, false, []⟩ := by
    simp only [processItems]
    rw [if_pos]
    omega
  have hfull : processItems o items d ⟨0, 0, 0, 0⟩
      = some ⟨pr.disk, { pr.stats with total := pr.stats.total + 1 }, false, pr.events⟩ := by
    conv_lhs => rw [← List.take_append_drop N items]
    rw [processItems_append, hpr]
    dsimp only
    rw [if_pos hm, hdrop, hstep]
    simp
  have hev : pr.events.countP Event.isFetch = 0 :=
    List.countP_eq_zero.mpr (fun e he => by
      simpa using (processItems_events o (items.take N) d ⟨0, 0, 0, 0⟩ pr hpr e he).1)
  have hrun : runLoop o (Except.ok ⟨items, tok⟩ :: rest) "" d ⟨0, 0, 0, 0⟩
      = some ⟨none, pr.disk, { pr.stats with total := pr.stats.total + 1 },
          Event.progress 0 0 0 0 :: Event.sleep o.throttle :: Event.fetch "" :: pr.events⟩ := by
    simp only [runLoop]
    rw [hfull]
    simp
  refine ⟨htot, Event.progress 0 0 0 0 :: Event.sleep o.throttle :: Event.fetch ""
      :: (pr.events ++ [Event.summary (pr.stats.total + 1) pr.stats.downloaded
        pr.stats.errors pr.stats.totalsize]), ?_, ?_⟩
  · unfold DownloadAll
    rw [hrun]
    simp
  · simp [fetchCount, List.countP_cons, List.countP_append, hev, Event.isFetch]

/-- Witness for C2 at `N = 1`, `k = 2`: a three-item page under a cap of 1
ends with `total = 2`, the stats and disk of item 1 alone, and one fetch. -/
theorem C2_witness :
    prOneW.stats.total = 1 ∧
    ∃ tr, DownloadAll optsCapW [Except.ok ⟨listThreeW, "tk"⟩] diskEmptyW
        = some ⟨none, prOneW.disk, { prOneW.stats with total := prOneW.stats.total + 1 }, tr⟩
      ∧ fetchCount tr = 1 :=
  C2_cap_boundary optsCapW listThreeW "tk" [] diskEmptyW 1 2 prOneW rfl rfl
    (by decide) rfl rfl

/-- Claim C3: a failure persisting an individual item is logged, bumps the
`errors` counter by exactly one and lets the loop continue with the next
item, while a failure of the page-listing fetch itself aborts the run
immediately with that error, keeping the counters and files from the
earlier page exactly as they were. -/
theorem C3_item_failures_continue_page_failures_abort (o : Options) :
    (∀ (m : MediaItem) (env : ItemEnv) (rest : List (MediaItem × ItemEnv)) (d : Disk)
        (st : Stats) (r : DIResult) (e : Err),
      st.total + 1 ≤ o.maxItems →
      downloadItem o m env d { st with total := st.total + 1 } = some r →
      r.res = some e →
      processItems o ((m, env) :: rest) d st =
        match processItems o rest r.disk { r.stats with errors := r.stats.errors + 1 } with
        | none => none
        | some pr => some ⟨pr.disk, pr.stats, pr.hasMore, Event.failLog m.id e :: pr.events⟩)
  ∧ (∀ (p1 : Page) (e : Err) (rest : List (Except Err Page)) (d : Disk) (pr : PIRes),
      processItems o p1.mediaItems d ⟨0, 0, 0, 0⟩ = some pr →
      pr.hasMore = true →
      p1.nextPageToken ≠ "" →
      ∃ tr, DownloadAll o (Except.ok p1 :: Except.error e :: rest) d
          = some ⟨some e, pr.disk, pr.stats, tr⟩
        ∧ fetchCount tr = 2) := by
  constructor
  · intro m env rest d st r e hcap hd hr
    simp only [processItems]
    rw [if_neg (by omega)]
    rw [hd]
    dsimp only
    rw [hr]
  · intro p1 e rest d pr hpr hm htok
    have htokb : (p1.nextPageToken == "") = false := by
      simpa using htok
    have hev : pr.events.countP Event.isFetch = 0 :=
      List.countP_eq_zero.mpr (fun e2 he2 => by
        simpa using (processItems_events o p1.mediaItems d ⟨0, 0, 0, 0⟩ pr hpr e2 he2).1)
    have hrun : runLoop o (Except.ok p1 :: Except.error e :: rest) "" d ⟨0, 0, 0, 0⟩
        = some ⟨some e, pr.disk, pr.stats,
            Event.progress 0 0 0 0 :: Event.sleep o.throttle :: Event.fetch ""
              :: (pr.events ++ [Event.progress pr.stats.total pr.stats.downloaded
                    pr.stats.errors pr.stats.totalsize, Event.sleep o.throttle,
                  Event.fetch p1.nextPageToken])⟩ := by
      conv_lhs => rw [runLoop]
      rw [hpr]
      dsimp only
      rw [hm, htokb]
      simp only [runLoop]
      simp
    refine ⟨Event.progress 0 0 0 0 :: Event.sleep o.throttle :: Event.fetch ""
        :: (pr.events ++ [Event.progress pr.stats.total pr.stats.downloaded
              pr.stats.errors pr.stats.totalsize, Event.sleep o.throttle,
            Event.fetch p1.nextPageToken]), ?_, ?_⟩
    · unfold DownloadAll
      rw [hrun]
    · simp [fetchCount, List.countP_cons, List.countP_append, hev, Event.isFetch]

/-- Witness for C3: a one-item page whose item fails to marshal continues
the loop with `errors = 1` and a failure log; a fetch failure on page 2
aborts with page-1 stats, disk and two fetches. -/
theorem C3_witness :
    (processItems optsW [(itemW, envMarshalFailW)] diskEmptyW stW =
      match processItems optsW [] rFailW.disk
          { rFailW.stats with errors := rFailW.stats.errors + 1 } with
      | none => none
      | some pr => some ⟨pr.disk, pr.stats, pr.hasMore,
          Event.failLog itemW.id "boom" :: pr.events⟩)
  ∧ (∃ tr, DownloadAll optsW [Except.ok pageOneW, Except.error "efetch"] diskEmptyW
        = some ⟨some "efetch", prOneW.disk, prOneW.stats, tr⟩
      ∧ fetchCount tr = 2) :=
  ⟨(C3_item_failures_continue_page_failures_abort optsW).1 itemW envMarshalFailW []
      diskEmptyW stW rFailW "boom" (by decide) rfl rfl,
   (C3_item_failures_continue_page_failures_abort optsW).2 pageOneW "efetch" []
      diskEmptyW prOneW rfl rfl (by decide)⟩

/-- Claim C8: a listing response carrying an empty continuation token ends
the pagination loop normally — the loop performs no further fetch after
that page, returns success with the stats and disk produced by that page's
items, and the whole run performs exactly one fetch for that page and ends
with the summary line. -/
theorem C8_empty_token_ends_run (o : Options) (items : List (MediaItem × ItemEnv))
    (rest : List (Except Err Page)) :
    (∀ (tok : String) (d : Disk) (st : Stats) (pr : PIRes),
      processItems o items d st = some pr →
      runLoop o (Except.ok ⟨items, ""⟩ :: rest) tok d st
        = some ⟨none, pr.disk, pr.stats,
            Event.progress st.total st.downloaded st.errors st.totalsize
              :: Event.sleep o.throttle :: Event.fetch tok :: pr.events⟩)
  ∧ (∀ (d : Disk) (pr : PIRes),
      processItems o items d ⟨0, 0, 0, 0⟩ = some pr →
      ∃ tr, DownloadAll o (Except.ok ⟨items, ""⟩ :: rest) d
          = some ⟨none, pr.disk, pr.stats, tr⟩
        ∧ fetchCount tr = 1
        ∧ tr.getLast? = some (Event.summary pr.stats.total pr.stats.downloaded
            pr.stats.errors pr.stats.totalsize)) := by
  have hloop : ∀ (tok : String) (d : Disk) (st : Stats) (pr : PIRes),
      processItems o items d st = some pr →
      runLoop o (Except.ok ⟨items, ""⟩ :: rest) tok d st
        = some ⟨none, pr.disk, pr.stats,
            Event.progress st.total st.downloaded st.errors st.totalsize
              :: Event.sleep o.throttle :: Event.fetch tok :: pr.events⟩ := by
    intro tok d st pr hpr
    simp only [runLoop]
    rw [hpr]
    simp
  refine ⟨hloop, fun d pr hpr => ?_⟩
  have hev : pr.events.countP Event.isFetch = 0 :=
    List.countP_eq_zero.mpr (fun e2 he2 => by
      simpa using (processItems_events o items d ⟨0, 0, 0, 0⟩ pr hpr e2 he2).1)
  refine ⟨Event.progress 0 0 0 0 :: Event.sleep o.throttle :: Event.fetch ""
      :: (pr.events ++ [Event.summary pr.stats.total pr.stats.downloaded
          pr.stats.errors pr.stats.totalsize]), ?_, ?_, ?_⟩
  · unfold DownloadAll
    rw [hloop "" d ⟨0, 0, 0, 0⟩ pr hpr]
    simp
  · simp [fetchCount, List.countP_cons, List.countP_append, hev, Event.isFetch]
  · rw [show Event.progress 0 0 0 0 :: Event.sleep o.throttle :: Event.fetch ""
        :: (pr.events ++ [Event.summary pr.stats.total pr.stats.downloaded
            pr.stats.errors pr.stats.totalsize])
      = (Event.progress 0 0 0 0 :: Event.sleep o.throttle :: Event.fetch ""
          :: pr.events) ++ [Event.summary pr.stats.total pr.stats.downloaded
            pr.stats.errors pr.stats.totalsize] by simp]
    rw [List.getLast?_concat]

/-- Witness for C8: a single one-item page with an empty token fetches
once, succeeds and ends with the summary. -/
theorem C8_witness :
    (runLoop optsW [Except.ok ⟨[(itemW, envW)], ""⟩] "t0" diskEmptyW stW
      = some ⟨none, prOneW.disk, prOneW.stats,
          Event.progress stW.total stW.downloaded stW.errors stW.totalsize
            :: Event.sleep optsW.throttle :: Event.fetch "t0" :: prOneW.events⟩)
  ∧ (∃ tr, DownloadAll optsW [Except.ok ⟨[(itemW, envW)], ""⟩] diskEmptyW
        = some ⟨none, prOneW.disk, prOneW.stats, tr⟩
      ∧ fetchCount tr = 1
      ∧ tr.getLast? = some (Event.summary prOneW.stats.total prOneW.stats.downloaded
          prOneW.stats.errors prOneW.stats.totalsize)) :=
  ⟨(C8_empty_token_ends_run optsW [(itemW, envW)] []).1 "t0" diskEmptyW stW prOneW rfl,
   (C8_empty_token_ends_run optsW [(itemW, envW)] []).2 diskEmptyW prOneW rfl⟩

/-- Claim C7: in every run, each page fetch is preceded — never
followed — by the throttle sleep (so the very first fetch, at trace
position 2, is also delayed by one full throttle interval), a progress
line is emitted immediately before each throttle sleep, and a successful
run ends with the final summary line. -/
theorem C7_sleep_precedes_every_fetch (o : Options) (resps : List (Except Err Page))
    (d : Disk) (r : RunResult) (h : DownloadAll o resps d = some r) :
    sleepDelayedFetches r.trace ∧ noSleepAfterFetch r.trace ∧ progressBeforeSleep r.trace
  ∧ r.trace.get? 0 = some (Event.progress 0 0 0 0)
  ∧ r.trace.get? 1 = some (Event.sleep o.throttle)
  ∧ r.trace.get? 2 = some (Event.fetch "")
  ∧ (r.res = none → ∃ a b c e, r.trace.getLast? = some (Event.summary a b c e)) := by
  unfold DownloadAll at h
  cases hl : runLoop o resps "" d ⟨0, 0, 0, 0⟩ with
  | none =>
    rw [hl] at h
    exact Option.noConfusion h
  | some r1 =>
    rw [hl] at h
    dsimp only at h
    have hthr := runLoop_throttled o resps "" d ⟨0, 0, 0, 0⟩ r1 hl
    obtain ⟨t', hhead⟩ := runLoop_trace_head o resps "" d ⟨0, 0, 0, 0⟩ r1 hl
    cases hres : r1.res with
    | some e =>
      rw [hres] at h
      injection h with h
      subst h
      refine ⟨throttled_sdf hthr, throttled_nsaf hthr, throttled_pbs hthr, ?_, ?_, ?_, ?_⟩
      · rw [hhead]
        rfl
      · rw [hhead]
        rfl
      · rw [hhead]
        rfl
      · intro hnone
        rw [hres] at hnone
        exact Option.noConfusion hnone
    | none =>
      rw [hres] at h
      injection h with h
      subst h
      dsimp only
      have hlen : 3 ≤ r1.trace.length := by
        rw [hhead]
        simp only [List.length_cons]
        omega
      have hthr2 := throttled_append_one hthr
        (Event.summary r1.stats.total r1.stats.downloaded r1.stats.errors r1.stats.totalsize)
        rfl rfl
      refine ⟨throttled_sdf hthr2, throttled_nsaf hthr2, throttled_pbs hthr2, ?_, ?_, ?_, ?_⟩
      · rw [get?_append_lt _ _ _ (by omega), hhead]
        rfl
      · rw [get?_append_lt _ _ _ (by omega), hhead]
        rfl
      · rw [get?_append_lt _ _ _ (by omega), hhead]
        rfl
      · intro _
        exact ⟨r1.stats.total, r1.stats.downloaded, r1.stats.errors, r1.stats.totalsize,
          List.getLast?_concat _⟩

/-- Witness for C7: the run over a single empty page with throttle 2. -/
theorem C7_witness :
    sleepDelayedFetches runW.trace ∧ noSleepAfterFetch runW.trace
  ∧ progressBeforeSleep runW.trace
  ∧ runW.trace.get? 0 = some (Event.progress 0 0 0 0)
  ∧ runW.trace.get? 1 = some (Event.sleep optsW.throttle)
  ∧ runW.trace.get? 2 = some (Event.fetch "")
  ∧ (runW.res = none → ∃ a b c e, runW.trace.getLast? = some (Event.summary a b c e)) :=
  C7_sleep_precedes_every_fetch optsW [Except.ok ⟨[], ""⟩] diskEmptyW runW rfl

end Gitmoo
